import Mathlib

/-
Shallow embedding of src/src/NormalizedCollection/libs/RecordSetEventManager.js
(the RecordList reconciliation engine).  Plain JS objects used as key-value
stores (this.snaps, this.loading, this.recs) are modelled as association lists
that keep JS insertion-order semantics for string keys: assigning a fresh key
appends it, assigning an existing key updates its value in place, and delete
removes it.  Arrays (this.recIds, this.initialKeysLeft) are Lean lists.
-/

namespace RecordList

/-- A snapshot delivered by the per-key value stream: its key and an opaque
payload, modelled as a natural number. -/
structure Snap where
  key : String
  val : Nat
deriving DecidableEq, Repr

/-- Callbacks handed to the per-key value-stream watch and unwatch calls.
Modelled from the spec: the common library util.bind (not under src/)
partially applies a function to a context and leading arguments and returns a
new function object, distinct from the raw method it wraps; rec.watch and
rec.unwatch match subscriptions by callback identity.  boundValueUpdated key
stands for util.bind(this.valueUpdated, this, key); rawValueUpdated stands
for the unwrapped this.valueUpdated method passed to unwatch. -/
inductive Callback where
  | boundValueUpdated (key : String)
  | rawValueUpdated
deriving DecidableEq, Repr

/-- The loading[key] entry {rec: rec, prev: prevChild}: the rec handle is
determined by the key, so only the prev field is kept. -/
structure PendingRec where
  prev : Option String
deriving DecidableEq, Repr

/-- The five event kinds that reach the consumer via this.obs.handler. -/
inductive Ev where
  | child_added (key : String) (snap : Option Snap) (prev : Option String)
  | child_changed (key : String) (snap : Option Snap)
  | child_removed (key : String) (snap : Option Snap)
  | child_moved (key : String) (snap : Option Snap) (prev : Option String)
  | value (snaps : List Snap)
deriving DecidableEq, Repr

/-- Event kinds accepted by the internal notify dispatcher. -/
inductive EvKind where
  | child_added
  | child_changed
  | child_removed
  | child_moved
deriving DecidableEq, Repr

/-- JS object assignment obj[k] = v on a plain object: an existing key keeps
its position in key insertion order, a new key is appended. -/
def objSet (l : List (String × α)) (k : String) (v : α) : List (String × α) :=
  if l.any (fun p => p.1 = k) then l.map (fun p => if p.1 = k then (k, v) else p)
  else l ++ [(k, v)]

/-- JS obj[k] read: the stored value or undefined (none). -/
def objGet? (l : List (String × α)) (k : String) : Option α :=
  (l.find? (fun p => p.1 = k)).map (fun p => p.2)

/-- JS delete obj[k]. -/
def objDel (l : List (String × α)) (k : String) : List (String × α) :=
  l.filter (fun p => p.1 ≠ k)

/-- JS object assignment on a key set (this.recs keyed by record key; the
stored rec handle is determined by the key). -/
def objInsertKey (l : List String) (k : String) : List String :=
  if l.contains k then l else l ++ [k]

/-- The RecordList state.  watchLog and unwatchLog record, in order, every
rec.watch and rec.unwatch call issued, with the callback passed to it; they
instrument the subscription traffic and are never read by the engine. -/
structure RState where
  recs : List String
  recIds : List String
  snaps : List (String × Snap)
  loading : List (String × PendingRec)
  loadComplete : Bool
  initialKeysLeft : List String
  masterLoaded : Bool
  watchLog : List (String × Callback)
  unwatchLog : List (String × Callback)
deriving DecidableEq, Repr

/-- The state produced by the reset in the constructor: everything empty,
both load flags false. -/
def init : RState :=
  { recs := [], recIds := [], snaps := [], loading := [],
    loadComplete := false, initialKeysLeft := [], masterLoaded := false,
    watchLog := [], unwatchLog := [] }

/-- findKey / util.indexOf on this.recIds: the index of the first occurrence
of key, or -1 when absent (JS Array.prototype.indexOf). -/
def findKey : List String → String → Int
  | [], _ => -1
  | x :: xs, k =>
      if x = k then 0
      else if findKey xs k = -1 then -1 else findKey xs k + 1

/-- getPrevChild: null for an empty list, the last element when key is
absent, null when key is first, otherwise the element before key. -/
def getPrevChild (recIds : List String) (key : String) : Option String :=
  if recIds.length = 0 then none
  else
    let pos := findKey recIds key
    if pos = -1 then recIds[recIds.length - 1]?
    else if pos = 0 then none
    else recIds[(pos - 1).toNat]?

/-- posFor: 0 when prevKey is null, the end of the list when prevKey is
absent, otherwise one past the index of prevKey. -/
def posFor (recIds : List String) (prevKey : Option String) : Nat :=
  match prevKey with
  | none => 0
  | some k =>
      let x := findKey recIds k
      if x = -1 then recIds.length else (x + 1).toNat

/-- putAfter: splice(posFor prevChild, 0, key). -/
def putAfter (recIds : List String) (key : String) (prevChild : Option String) :
    List String :=
  let newPos := posFor recIds prevChild
  recIds.take newPos ++ key :: recIds.drop newPos

/-- toArray on this.snaps.  Modelled from the spec collaborators: the common
library util.toArray (not under src/) turns a plain object into the array of
its values, enumerated in the key order of the object, which for JS string keys is
insertion order. -/
def toArray (snaps : List (String × Snap)) : List Snap :=
  snaps.map (fun p => p.2)

/-- notifyValue: emit value(toArray(snaps)) when loadComplete, else nothing. -/
def notifyValue (s : RState) : List Ev :=
  if s.loadComplete then [Ev.value (toArray s.snaps)] else []

/-- notify: build the per-key event from the current state, then always run
the notifyValue step. -/
def notify (s : RState) (event : EvKind) (key : String) (oldSnap : Option Snap) :
    List Ev :=
  (match event with
   | EvKind.child_added =>
       [Ev.child_added key (objGet? s.snaps key) (getPrevChild s.recIds key)]
   | EvKind.child_moved =>
       [Ev.child_moved key (objGet? s.snaps key) (getPrevChild s.recIds key)]
   | EvKind.child_changed =>
       [Ev.child_changed key (objGet? s.snaps key)]
   | EvKind.child_removed =>
       [Ev.child_removed key oldSnap]) ++ notifyValue s

/-- add(key, prevChild): store a loading entry, track the key for initial
load when loadComplete is still false, and watch the child value stream with
the bound callback. -/
def add (s : RState) (key : String) (prevChild : Option String) : RState :=
  { s with
    loading := objSet s.loading key ⟨prevChild⟩,
    initialKeysLeft :=
      if s.loadComplete = false then s.initialKeysLeft ++ [key]
      else s.initialKeysLeft,
    watchLog := s.watchLog ++ [(key, Callback.boundValueUpdated key)] }

/-- dropRecord(key): only when key is in recs, unwatch (passing the raw
method), delete it from recs, snaps, loading and recIds, and return the old
snapshot (some (possibly undefined snap)); otherwise return null (none). -/
def dropRecord (s : RState) (key : String) : RState × Option (Option Snap) :=
  if s.recs.contains key then
    ({ s with
        unwatchLog := s.unwatchLog ++ [(key, Callback.rawValueUpdated)],
        recs := s.recs.erase key,
        snaps := objDel s.snaps key,
        loading := objDel s.loading key,
        recIds := s.recIds.erase key },
     some (objGet? s.snaps key))
  else (s, none)

/-- remove(key): dropRecord, then a child_removed notification only when the
returned old snapshot is not null. -/
def remove (s : RState) (key : String) : RState × List Ev :=
  let r := dropRecord s key
  (r.1,
   match r.2 with
   | some o => notify r.1 EvKind.child_removed key o
   | none => [])

/-- move(key, prevChild): when key is in recs, splice it out of recIds at its
current index (JS splice semantics for a negative start), reinsert it with
putAfter, and send child_moved; otherwise do nothing. -/
def move (s : RState) (key : String) (prevChild : Option String) :
    RState × List Ev :=
  if s.recs.contains key then
    let currPos := findKey s.recIds key
    let start : Int :=
      if currPos < 0 then max ((s.recIds.length : Int) + currPos) 0 else currPos
    let spliced := s.recIds.take start.toNat ++ s.recIds.drop (start.toNat + 1)
    let s1 := { s with recIds := putAfter spliced key prevChild }
    (s1, notify s1 EvKind.child_moved key none)
  else (s, [])

/-- checkLoadState(key): nothing once loadComplete; otherwise erase a truthy
key from initialKeysLeft, and when initialKeysLeft is empty and masterLoaded,
set loadComplete and run notifyValue only when called with no key. -/
def checkLoadState (s : RState) (key : Option String) : RState × List Ev :=
  if s.loadComplete then (s, [])
  else
    let s1 :=
      { s with initialKeysLeft :=
          match key with
          | some k => s.initialKeysLeft.erase k
          | none => s.initialKeysLeft }
    if s1.initialKeysLeft.isEmpty && s1.masterLoaded then
      let s2 := { s1 with loadComplete := true }
      (s2, match key with
           | none => notifyValue s2
           | some _ => [])
    else (s1, [])

/-- masterPathLoaded: set masterLoaded then re-check the load state with no
key. -/
def masterPathLoaded (s : RState) : RState × List Ev :=
  checkLoadState { s with masterLoaded := true } none

/-- valueUpdated(key, snap): store the snapshot first; then promote a loading
key (move it to recs, insert into recIds after its recorded prev, check load
state with the key, send child_added), or send child_changed for an active
key, or silently drop an orphan. -/
def valueUpdated (s : RState) (key : String) (snap : Snap) : RState × List Ev :=
  let s0 := { s with snaps := objSet s.snaps key snap }
  match objGet? s0.loading key with
  | some r =>
      let s2 :=
        { s0 with
            loading := objDel s0.loading key,
            recs := objInsertKey s0.recs key,
            recIds := putAfter s0.recIds key r.prev }
      let s3 := (checkLoadState s2 (some key)).1
      (s3, (checkLoadState s2 (some key)).2 ++ notify s3 EvKind.child_added key none)
  | none =>
      if s0.recs.contains key then (s0, notify s0 EvKind.child_changed key none)
      else (s0, [])

/-- The reset drain loop: util.each over the keys of recs, calling remove on
each (remove only deletes the visited key, so folding over the initial key
list matches the JS iteration). -/
def resetDrain (s : RState) : RState × List Ev :=
  s.recs.foldl
    (fun acc k => ((remove acc.1 k).1, acc.2 ++ (remove acc.1 k).2))
    (s, [])

/-- reset: drain every active record through remove, then clear all maps and
sequences and both load flags.  The watch instrumentation logs persist. -/
def reset (s : RState) : RState × List Ev :=
  let r := resetDrain s
  ({ r.1 with
      recs := [], recIds := [], snaps := [], loading := [],
      loadComplete := false, initialKeysLeft := [], masterLoaded := false },
   r.2)

/-- One external stimulus delivered to the engine: an ordering event (add,
remove, move), a value arrival on the value stream of a key, the one-time master
path initial-load signal, or stop (RecordSetEventManager.stop calls
recList.unloaded, which is reset). -/
inductive Op where
  | add (key : String) (prev : Option String)
  | remove (key : String)
  | move (key : String) (prev : Option String)
  | valueArrive (key : String) (v : Nat)
  | masterLoad
  | stop
deriving DecidableEq, Repr

/-- Dispatch one stimulus.  A value stream for key delivers snapshots whose
key() is that key. -/
def applyOp (s : RState) : Op → RState × List Ev
  | Op.add k p => (add s k p, [])
  | Op.remove k => remove s k
  | Op.move k p => move s k p
  | Op.valueArrive k v => valueUpdated s k ⟨k, v⟩
  | Op.masterLoad => masterPathLoaded s
  | Op.stop => reset s

/-- Run a list of stimuli from a state, collecting all emitted events. -/
def runOps : RState → List Op → RState × List Ev
  | s, [] => (s, [])
  | s, op :: ops =>
      let r := applyOp s op
      let r2 := runOps r.1 ops
      (r2.1, r.2 ++ r2.2)

/-- Run a session from the freshly constructed engine. -/
def run (ops : List Op) : RState :=
  (runOps init ops).1

/-- Whether an event is the aggregate value notification. -/
def isValue : Ev → Bool
  | Ev.value _ => true
  | _ => false

/-- How many aggregate value notifications a list of events contains. -/
def valueCount (evs : List Ev) : Nat :=
  (evs.filter isValue).length

/-- Reference definition written from the words of the spec, for comparison
with the emitted payload: all snapshots of keys currently in the ordered
sequence, in ordered-sequence order. -/
def specSequenceOrderedSnapshots (s : RState) : List Snap :=
  s.recIds.filterMap (fun k => objGet? s.snaps k)


/-- Stimulus trace used to exercise the aggregate payload ordering: the
master ordering announces b first, then a after b, but the value streams
deliver a before b. -/
def c3ops : List Op :=
  [Op.add "b" none, Op.add "a" (some "b"), Op.valueArrive "a" 1,
   Op.valueArrive "b" 2, Op.masterLoad]

/-- Stimulus trace in which b is removed while still pending: a and b are
announced during the initial batch, the value of a arrives, b is removed before
its value arrives, then the master path finishes loading. -/
def c5ops : List Op :=
  [Op.add "a" none, Op.add "b" (some "a"), Op.valueArrive "a" 1,
   Op.remove "b", Op.masterLoad]

/-- Stimulus trace that loads a single active record a to completion. -/
def c6ops : List Op :=
  [Op.add "a" none, Op.valueArrive "a" 1, Op.masterLoad]

/-- Stimulus trace that loads a then b to completion, with b after a. -/
def c9ops : List Op :=
  [Op.add "a" none, Op.add "b" (some "a"), Op.valueArrive "a" 1,
   Op.valueArrive "b" 2, Op.masterLoad]

/-- A state holding one pending key k recorded to be inserted after s, with
the ordered sequence already containing s and t. -/
def cw7 : RState :=
  { init with loading := [("k", PendingRec.mk (some "s"))],
              recIds := ["s", "t"] }

/-- The one-active-record loaded state reached by c6ops, reused as a concrete
input for witness instantiations. -/
def loadedOne : RState :=
  run [Op.add "a" none, Op.valueArrive "a" 1, Op.masterLoad]


/-- The load-state coupling the code maintains: the loadComplete flag holds
exactly when the master path finished its initial batch and no initially
announced key is still waiting for its first value. -/
def loadInv (s : RState) : Prop :=
  s.loadComplete = (s.masterLoaded && s.initialKeysLeft.isEmpty)

end RecordList

namespace RecordList

theorem checkLoadState_none_eq (s : RState) :
    checkLoadState s none =
      if s.loadComplete then (s, [])
      else if s.initialKeysLeft.isEmpty && s.masterLoaded then
        ({ s with loadComplete := true },
         notifyValue { s with loadComplete := true })
      else (s, []) := rfl

theorem checkLoadState_some_eq (s : RState) (k : String) :
    checkLoadState s (some k) =
      if s.loadComplete then (s, [])
      else
        if (s.initialKeysLeft.erase k).isEmpty && s.masterLoaded then
          ({ s with initialKeysLeft := s.initialKeysLeft.erase k,
                    loadComplete := true }, [])
        else ({ s with initialKeysLeft := s.initialKeysLeft.erase k }, []) := rfl

theorem checkLoadState_fst_recIds (s : RState) (key : Option String) :
    (checkLoadState s key).1.recIds = s.recIds := by
  cases key with
  | none => rw [checkLoadState_none_eq]; split_ifs <;> rfl
  | some k => rw [checkLoadState_some_eq]; split_ifs <;> rfl

theorem checkLoadState_fst_snaps (s : RState) (key : Option String) :
    (checkLoadState s key).1.snaps = s.snaps := by
  cases key with
  | none => rw [checkLoadState_none_eq]; split_ifs <;> rfl
  | some k => rw [checkLoadState_some_eq]; split_ifs <;> rfl

theorem checkLoadState_fst_recs (s : RState) (key : Option String) :
    (checkLoadState s key).1.recs = s.recs := by
  cases key with
  | none => rw [checkLoadState_none_eq]; split_ifs <;> rfl
  | some k => rw [checkLoadState_some_eq]; split_ifs <;> rfl

theorem checkLoadState_fst_masterLoaded (s : RState) (key : Option String) :
    (checkLoadState s key).1.masterLoaded = s.masterLoaded := by
  cases key with
  | none => rw [checkLoadState_none_eq]; split_ifs <;> rfl
  | some k => rw [checkLoadState_some_eq]; split_ifs <;> rfl

theorem checkLoadState_snd_some (s : RState) (k : String) :
    (checkLoadState s (some k)).2 = [] := by
  rw [checkLoadState_some_eq]; split_ifs <;> rfl

theorem checkLoadState_of_complete (s : RState) (key : Option String)
    (h : s.loadComplete = true) : checkLoadState s key = (s, []) := by
  unfold checkLoadState; rw [if_pos h]

theorem remove_fst (s : RState) (k : String) : (remove s k).1 = (dropRecord s k).1 :=
  rfl

theorem dropRecord_fst_loadComplete (s : RState) (k : String) :
    (dropRecord s k).1.loadComplete = s.loadComplete := by
  unfold dropRecord; split <;> rfl

theorem dropRecord_fst_masterLoaded (s : RState) (k : String) :
    (dropRecord s k).1.masterLoaded = s.masterLoaded := by
  unfold dropRecord; split <;> rfl

theorem dropRecord_fst_initialKeysLeft (s : RState) (k : String) :
    (dropRecord s k).1.initialKeysLeft = s.initialKeysLeft := by
  unfold dropRecord; split <;> rfl

theorem move_fst_loadComplete (s : RState) (k : String) (p : Option String) :
    (move s k p).1.loadComplete = s.loadComplete := by
  unfold move; split <;> rfl

theorem add_loadComplete (s : RState) (k : String) (p : Option String) :
    (add s k p).loadComplete = s.loadComplete := rfl

theorem reset_fst_loadComplete (s : RState) : (reset s).1.loadComplete = false := rfl

theorem valueCount_nil : valueCount [] = 0 := rfl

theorem valueCount_append (a b : List Ev) :
    valueCount (a ++ b) = valueCount a + valueCount b := by
  simp [valueCount, List.filter_append]

theorem valueCount_notifyValue (s : RState) :
    valueCount (notifyValue s) = if s.loadComplete then 1 else 0 := by
  unfold notifyValue; split <;> rfl

theorem valueCount_notify (s : RState) (e : EvKind) (k : String) (o : Option Snap) :
    valueCount (notify s e k o) = if s.loadComplete then 1 else 0 := by
  cases e <;>
    simp [notify, valueCount_append, valueCount, isValue, notifyValue] <;>
    split <;> simp [isValue]

end RecordList

namespace RecordList

theorem findKey_of_not_mem (l : List String) (k : String) (h : k ∉ l) :
    findKey l k = -1 := by
  induction l with
  | nil => rfl
  | cons x xs ih =>
      have hx : x ≠ k := fun e => h (e ▸ List.mem_cons_self x xs)
      have h2 : k ∉ xs := fun m => h (List.mem_cons_of_mem x m)
      simp [findKey, hx, ih h2]

theorem findKey_append_cons (l1 : List String) (a : String) (l2 : List String)
    (h : a ∉ l1) : findKey (l1 ++ a :: l2) a = (l1.length : Int) := by
  induction l1 with
  | nil => simp [findKey]
  | cons x xs ih =>
      have hx : x ≠ a := fun e => h (e ▸ List.mem_cons_self x xs)
      have h2 : a ∉ xs := fun m => h (List.mem_cons_of_mem x m)
      have hlen : findKey (xs ++ a :: l2) a = (xs.length : Int) := ih h2
      have hne : ((xs.length : Int)) ≠ -1 := by omega
      simp [findKey, hx, hlen, hne]

theorem posFor_none (l : List String) : posFor l none = 0 := rfl

theorem posFor_not_mem (l : List String) (k : String) (h : k ∉ l) :
    posFor l (some k) = l.length := by
  simp [posFor, findKey_of_not_mem l k h]

theorem posFor_append_cons (l1 : List String) (a : String) (l2 : List String)
    (h : a ∉ l1) : posFor (l1 ++ a :: l2) (some a) = l1.length + 1 := by
  have h1 := findKey_append_cons l1 a l2 h
  have hne : ((l1.length : Int)) ≠ -1 := by omega
  simp [posFor, h1, hne]

theorem take_length_succ_append (l1 : List String) (a : String) (l2 : List String) :
    (l1 ++ a :: l2).take (l1.length + 1) = l1 ++ [a] := by
  induction l1 with
  | nil => simp
  | cons x xs ih => simp [ih]

theorem drop_length_succ_append (l1 : List String) (a : String) (l2 : List String) :
    (l1 ++ a :: l2).drop (l1.length + 1) = l2 := by
  induction l1 with
  | nil => simp
  | cons x xs ih => simp [ih]

theorem putAfter_none (l : List String) (k : String) : putAfter l k none = k :: l := by
  simp [putAfter, posFor]

theorem putAfter_of_not_mem (l : List String) (k S : String) (h : S ∉ l) :
    putAfter l k (some S) = l ++ [k] := by
  simp [putAfter, posFor_not_mem l S h]

theorem putAfter_append_cons (l1 : List String) (S : String) (l2 : List String)
    (k : String) (h : S ∉ l1) :
    putAfter (l1 ++ S :: l2) k (some S) = l1 ++ S :: k :: l2 := by
  simp [putAfter, posFor_append_cons l1 S l2 h,
        take_length_succ_append, drop_length_succ_append]

theorem getElem?_append_cons (l1 : List String) (a : String) (l2 : List String) :
    (l1 ++ a :: l2)[l1.length]? = some a := by
  induction l1 with
  | nil => simp
  | cons x xs ih => simpa using ih

theorem isEmpty_append_singleton (l : List String) (k : String) :
    (l ++ [k]).isEmpty = false := by
  cases l <;> rfl

theorem runOps_append (s : RState) (l1 l2 : List Op) :
    runOps s (l1 ++ l2)
      = ((runOps (runOps s l1).1 l2).1,
         (runOps s l1).2 ++ (runOps (runOps s l1).1 l2).2) := by
  induction l1 generalizing s with
  | nil => simp [runOps]
  | cons op ops ih => simp [runOps, ih]

theorem run_snoc (ops : List Op) (op : Op) :
    run (ops ++ [op]) = (applyOp (run ops) op).1 := by
  simp [run, runOps_append, runOps]

theorem runOps_snoc_snd (ops : List Op) (op : Op) :
    (runOps init (ops ++ [op])).2
      = (runOps init ops).2 ++ (applyOp (run ops) op).2 := by
  simp [run, runOps_append, runOps]

end RecordList

namespace RecordList

/-- Claim C5 is a code bug: removing key b while it is still pending (its
value has not arrived) is a no-op in the code: dropRecord only acts on keys
in recs, so b stays in loading and in initialKeysLeft, no unwatch call is
ever issued, and when the value of b arrives later the engine still promotes it,
emitting child_added for b and inserting b into the ordered sequence, contrary
to the claim that the watch is detached, the pending record destroyed, no
child_added is ever emitted for b, and b never appears in the sequence. -/
theorem c5_pending_remove_is_noop :
    objGet? (run c5ops).loading "b" = some (PendingRec.mk (some "a"))
    ∧ (run c5ops).unwatchLog = []
    ∧ (applyOp (run c5ops) (Op.valueArrive "b" 2)).2
        = [Ev.child_added "b" (some (Snap.mk "b" 2)) (some "a"),
           Ev.value [Snap.mk "a" 1, Snap.mk "b" 2]]
    ∧ (applyOp (run c5ops) (Op.valueArrive "b" 2)).1.recIds = ["a", "b"] := by
  decide

/-- Claim C6 is a code bug: a value arriving for the never-added key z emits
no event (that half of the claim holds) but does mutate engine state: the
snapshot store gains an entry for z, because valueUpdated stores the snapshot
before checking whether the key is tracked, and the orphaned snapshot then
leaks into the payload of every later aggregate value notification. -/
theorem c6_orphan_update_mutates_state :
    (applyOp (run c6ops) (Op.valueArrive "z" 7)).2 = []
    ∧ (run c6ops).snaps = [("a", Snap.mk "a" 1)]
    ∧ (applyOp (run c6ops) (Op.valueArrive "z" 7)).1.snaps
        = [("a", Snap.mk "a" 1), ("z", Snap.mk "z" 7)]
    ∧ (applyOp (applyOp (run c6ops) (Op.valueArrive "z" 7)).1
          (Op.valueArrive "a" 2)).2
        = [Ev.child_changed "a" (some (Snap.mk "a" 2)),
           Ev.value [Snap.mk "a" 2, Snap.mk "z" 7]] := by
  decide

/-- Claim C10 is a code bug: after add("a") and stop() while a is still
pending, the watch registered for a is never passed to any unwatch call at
all; and for an active key, remove does call unwatch but passes the raw
valueUpdated method, which is a different callback from the bound wrapper
that was registered by add, so the exact registered callback is never the
one released. -/
theorem c10_watch_never_released :
    ((runOps init [Op.add "a" none, Op.stop]).1.watchLog
        = [("a", Callback.boundValueUpdated "a")]
     ∧ (runOps init [Op.add "a" none, Op.stop]).1.unwatchLog = [])
    ∧ ((runOps init [Op.add "a" none, Op.valueArrive "a" 1, Op.remove "a"]).1.watchLog
        = [("a", Callback.boundValueUpdated "a")]
     ∧ (runOps init [Op.add "a" none, Op.valueArrive "a" 1, Op.remove "a"]).1.unwatchLog
        = [("a", Callback.rawValueUpdated)]
     ∧ Callback.rawValueUpdated ≠ Callback.boundValueUpdated "a") := by
  decide

/-- Claim C3 fails on the code: after c3ops the ordered key sequence is
[b, a], so the sequence-ordered payload would be [snap b, snap a], but the
single emitted aggregate value event carries [snap a, snap b]: the payload
follows the order in which snapshots were first stored, not the ordered key
sequence. -/
theorem c3_counterexample :
    (runOps init c3ops).2.filter isValue
        = [Ev.value [Snap.mk "a" 1, Snap.mk "b" 2]]
    ∧ (runOps init c3ops).1.recIds = ["b", "a"]
    ∧ specSequenceOrderedSnapshots (runOps init c3ops).1
        = [Snap.mk "b" 2, Snap.mk "a" 1]
    ∧ (runOps init c3ops).2.filter isValue
        ≠ [Ev.value (specSequenceOrderedSnapshots (runOps init c3ops).1)] := by
  decide

/-- Claim C8 fails on the code: with sequence [a, b] and the absent key z,
getPrevChild returns some b (the last key of the sequence), not none as the
claim states for a key not present in the sequence. -/
theorem c8_counterexample :
    ("z" ∉ (["a", "b"] : List String))
    ∧ getPrevChild ["a", "b"] "z" = some "b"
    ∧ getPrevChild ["a", "b"] "z" ≠ none := by
  decide

/-- Claim C9 fails on the code: in the fully loaded state after c9ops,
move("b", null) emits child_moved followed by an aggregate value
notification, because the notify dispatcher unconditionally runs the
notifyValue step; the claim says move emits no aggregate value event. -/
theorem c9_counterexample :
    (applyOp (run c9ops) (Op.move "b" none)).2
        = [Ev.child_moved "b" (some (Snap.mk "b" 2)) none,
           Ev.value [Snap.mk "a" 1, Snap.mk "b" 2]]
    ∧ valueCount (applyOp (run c9ops) (Op.move "b" none)).2 = 1 := by
  decide

end RecordList

namespace RecordList

theorem valueUpdated_promote_recIds (s : RState) (key : String) (v : Snap)
    (r : PendingRec) (h : objGet? s.loading key = some r) :
    (valueUpdated s key v).1.recIds = putAfter s.recIds key r.prev := by
  unfold valueUpdated
  dsimp only
  rw [h]
  dsimp only
  simp only [checkLoadState_fst_recIds]

/-- Claim C7: when the value for a pending key arrives (promotion), the key
is inserted into the ordered sequence immediately after its recorded sibling
S when S is present, at the front when S is null, and at the end when S is
absent from the sequence. -/
theorem c7_insert_after_sibling (s : RState) (key : String) (v : Nat)
    (r : PendingRec) (h : objGet? s.loading key = some r) :
    (r.prev = none →
        (valueUpdated s key (Snap.mk key v)).1.recIds = key :: s.recIds)
    ∧ (∀ S l1 l2, r.prev = some S → s.recIds = l1 ++ S :: l2 → S ∉ l1 →
        (valueUpdated s key (Snap.mk key v)).1.recIds = l1 ++ S :: key :: l2)
    ∧ (∀ S, r.prev = some S → S ∉ s.recIds →
        (valueUpdated s key (Snap.mk key v)).1.recIds = s.recIds ++ [key]) := by
  have base : (valueUpdated s key (Snap.mk key v)).1.recIds
      = putAfter s.recIds key r.prev :=
    valueUpdated_promote_recIds s key (Snap.mk key v) r h
  refine ⟨?_, ?_, ?_⟩
  · intro hp; rw [base, hp, putAfter_none]
  · intro S l1 l2 hp hseq hnm
    rw [base, hp, hseq, putAfter_append_cons l1 S l2 key hnm]
  · intro S hp hnm
    rw [base, hp, putAfter_of_not_mem s.recIds key S hnm]

/-- Witness for c7_insert_after_sibling: in a state where k is pending with
recorded sibling s and the sequence is [s, t], promotion of k yields the
sequence [s, k, t]. -/
theorem c7_witness :
    (valueUpdated cw7 "k" (Snap.mk "k" 0)).1.recIds = ["s", "k", "t"] := by
  have h := (c7_insert_after_sibling cw7 "k" 0 (PendingRec.mk (some "s"))
      (by decide)).2.1 "s" [] ["t"] rfl (by decide) (by decide)
  simpa using h

/-- Claim C8 amended: getPrevChild returns none for the empty sequence and
when key is the first element; it returns the element just before key when
key occurs later in the sequence; and when key does not occur in a nonempty
sequence it returns the last element of the sequence (not none). -/
theorem c8_prev_child_characterization (l : List String) (key : String) :
    (l = [] → getPrevChild l key = none)
    ∧ (∀ l2, l = key :: l2 → getPrevChild l key = none)
    ∧ (∀ l1 p l2, l = l1 ++ p :: key :: l2 → key ∉ l1 ++ [p] →
        getPrevChild l key = some p)
    ∧ (∀ l1 a, l = l1 ++ [a] → key ∉ l → getPrevChild l key = some a) := by
  refine ⟨?_, ?_, ?_, ?_⟩
  · rintro rfl; rfl
  · rintro l2 rfl
    simp [getPrevChild, findKey]
  · rintro l1 p l2 rfl hnm
    have hkey : findKey (l1 ++ p :: key :: l2) key = ((l1.length + 1 : Nat) : Int) := by
      have hsplit : l1 ++ p :: key :: l2 = (l1 ++ [p]) ++ key :: l2 := by simp
      rw [hsplit, findKey_append_cons (l1 ++ [p]) key l2 hnm]
      simp
    have hlen : (l1 ++ p :: key :: l2).length ≠ 0 := by simp
    have hne1 : ((l1.length + 1 : Nat) : Int) ≠ -1 := by omega
    have hne0 : ((l1.length + 1 : Nat) : Int) ≠ 0 := by omega
    have htn : ((((l1.length + 1 : Nat) : Int)) - 1).toNat = l1.length := by omega
    unfold getPrevChild
    rw [if_neg hlen]
    simp only [hkey, if_neg hne1, if_neg hne0, htn]
    exact getElem?_append_cons l1 p (key :: l2)
  · rintro l1 a rfl hnm
    have hlen : (l1 ++ [a]).length ≠ 0 := by simp
    have hfk : findKey (l1 ++ [a]) key = -1 := findKey_of_not_mem _ _ hnm
    have hidx : (l1 ++ [a]).length - 1 = l1.length := by simp
    unfold getPrevChild
    rw [if_neg hlen]
    simp only [hfk, if_pos rfl, hidx]
    exact getElem?_append_cons l1 a []

/-- Witness for c8_prev_child_characterization: in the sequence [a, b, c]
the predecessor of b is a. -/
theorem c8_witness : getPrevChild ["a", "b", "c"] "b" = some "a" :=
  (c8_prev_child_characterization ["a", "b", "c"] "b").2.2.1 [] "a" ["c"]
    rfl (by decide)

theorem take_length_append (l1 rest : List String) :
    (l1 ++ rest).take l1.length = l1 := by
  induction l1 with
  | nil => rfl
  | cons x xs ih => simp [ih]

theorem move_fst_recIds (s : RState) (key : String) (p : Option String)
    (hc : s.recs.contains key = true) (l1 l2 : List String)
    (hseq : s.recIds = l1 ++ key :: l2) (hnm : key ∉ l1) :
    (move s key p).1.recIds = putAfter (l1 ++ l2) key p := by
  unfold move
  rw [if_pos hc]
  dsimp only
  rw [hseq, findKey_append_cons l1 key l2 hnm]
  have hnotlt : ¬((l1.length : Int) < 0) := by omega
  rw [if_neg hnotlt]
  have htn : ((l1.length : Int)).toNat = l1.length := by omega
  rw [htn, take_length_append, drop_length_succ_append]

/-- Claim C9 amended: move on an untracked key changes nothing and emits
nothing; move on a tracked key removes it from its current position in the
ordered sequence and reinserts it after afterKey (first when afterKey is
null, immediately after afterKey when present, at the end when absent), and
emits exactly one child_moved event with the new predecessor of the key,
followed by one aggregate value notification when loadComplete is true (and
by none before load completes). -/
theorem c9_move_behavior (s : RState) (key : String) (p : Option String) :
    (s.recs.contains key = false → move s key p = (s, []))
    ∧ (s.recs.contains key = true →
        (move s key p).2
          = Ev.child_moved key (objGet? s.snaps key)
              (getPrevChild (move s key p).1.recIds key)
            :: (if s.loadComplete = true then [Ev.value (toArray s.snaps)]
                else []))
    ∧ (s.recs.contains key = true →
        ∀ l1 l2, s.recIds = l1 ++ key :: l2 → key ∉ l1 →
          ((p = none → (move s key p).1.recIds = key :: (l1 ++ l2))
           ∧ (∀ S m1 m2, p = some S → l1 ++ l2 = m1 ++ S :: m2 → S ∉ m1 →
                (move s key p).1.recIds = m1 ++ S :: key :: m2)
           ∧ (∀ S, p = some S → S ∉ l1 ++ l2 →
                (move s key p).1.recIds = (l1 ++ l2) ++ [key]))) := by
  refine ⟨?_, ?_, ?_⟩
  · intro h
    unfold move
    rw [if_neg (by rw [h]; exact Bool.false_ne_true)]
  · intro h
    simp only [move, if_pos h, notify, notifyValue]
    rfl
  · intro hc l1 l2 hseq hnm
    have base := move_fst_recIds s key p hc l1 l2 hseq hnm
    refine ⟨?_, ?_, ?_⟩
    · intro hp
      rw [base, hp, putAfter_none]
    · intro S m1 m2 hp hmid hS
      rw [base, hp, hmid, putAfter_append_cons m1 S m2 key hS]
    · intro S hp hS
      rw [base, hp, putAfter_of_not_mem (l1 ++ l2) key S hS]

/-- Witness for c9_move_behavior: in the loaded one-record state, moving a
to the front emits child_moved(a, null) followed by the aggregate value
notification; and in the loaded two-record state [a, b], moving b to the
front (afterKey null) yields the sequence [b, a]. -/
theorem c9_witness :
    ((move loadedOne "a" none).2
      = [Ev.child_moved "a" (some (Snap.mk "a" 1)) none,
         Ev.value [Snap.mk "a" 1]])
    ∧ (move (run c9ops) "b" none).1.recIds = ["b", "a"] := by
  constructor
  · have h := (c9_move_behavior loadedOne "a" none).2.1 (by decide)
    rw [h]
    decide
  · have h := ((c9_move_behavior (run c9ops) "b" none).2.2 (by decide)
        ["a"] [] (by decide) (by decide)).1 rfl
    simpa using h

end RecordList

namespace RecordList

theorem add_masterLoaded (s : RState) (k : String) (p : Option String) :
    (add s k p).masterLoaded = s.masterLoaded := rfl

theorem add_initialKeysLeft (s : RState) (k : String) (p : Option String) :
    (add s k p).initialKeysLeft
      = if s.loadComplete = false then s.initialKeysLeft ++ [k]
        else s.initialKeysLeft := rfl

theorem move_fst_masterLoaded (s : RState) (k : String) (p : Option String) :
    (move s k p).1.masterLoaded = s.masterLoaded := by
  unfold move; split <;> rfl

theorem move_fst_initialKeysLeft (s : RState) (k : String) (p : Option String) :
    (move s k p).1.initialKeysLeft = s.initialKeysLeft := by
  unfold move; split <;> rfl

theorem checkLoadState_loadInv (s : RState) (key : Option String)
    (h : s.loadComplete = true →
      (s.masterLoaded && s.initialKeysLeft.isEmpty) = true) :
    loadInv (checkLoadState s key).1 := by
  cases key with
  | none =>
      rw [checkLoadState_none_eq]
      split_ifs with h1 h2
      · unfold loadInv; rw [h1, h h1]
      · unfold loadInv
        simp only [Bool.and_eq_true] at h2
        simp [h2.1, h2.2]
      · unfold loadInv
        simp only [Bool.not_eq_true] at h1
        dsimp only
        rw [h1]
        cases hm : s.masterLoaded <;> cases he : s.initialKeysLeft.isEmpty <;>
          simp_all
  | some k =>
      rw [checkLoadState_some_eq]
      split_ifs with h1 h2
      · unfold loadInv; rw [h1, h h1]
      · unfold loadInv
        simp only [Bool.and_eq_true] at h2
        simp [h2.1, h2.2]
      · unfold loadInv
        simp only [Bool.not_eq_true] at h1
        dsimp only
        rw [h1]
        cases hm : s.masterLoaded <;>
          cases he : (s.initialKeysLeft.erase k).isEmpty <;> simp_all

theorem applyOp_loadInv (s : RState) (op : Op) (h : loadInv s) :
    loadInv (applyOp s op).1 := by
  cases op with
  | add k p =>
      unfold loadInv at h ⊢
      simp only [applyOp]
      rw [add_loadComplete, add_masterLoaded, add_initialKeysLeft]
      cases hf : s.loadComplete with
      | true => rw [hf] at h; simpa using h
      | false => simp [isEmpty_append_singleton]
  | remove k =>
      unfold loadInv at h ⊢
      simp only [applyOp]
      rw [remove_fst, dropRecord_fst_loadComplete, dropRecord_fst_masterLoaded,
          dropRecord_fst_initialKeysLeft]
      exact h
  | move k p =>
      unfold loadInv at h ⊢
      simp only [applyOp]
      rw [move_fst_loadComplete, move_fst_masterLoaded, move_fst_initialKeysLeft]
      exact h
  | valueArrive k v =>
      simp only [applyOp]
      unfold valueUpdated
      dsimp only
      cases hg : objGet? s.loading k with
      | none =>
          dsimp only
          split_ifs <;> exact h
      | some r =>
          dsimp only
          apply checkLoadState_loadInv
          intro hf
          unfold loadInv at h
          rw [← h]
          exact hf
  | masterLoad =>
      simp only [applyOp, masterPathLoaded]
      apply checkLoadState_loadInv
      intro hf
      have h2 : (s.masterLoaded && s.initialKeysLeft.isEmpty) = true := by
        unfold loadInv at h
        rw [← h]
        exact hf
      simp only [Bool.and_eq_true] at h2
      simp [h2.2]
  | stop =>
      unfold loadInv
      rfl

theorem runOps_loadInv (ops : List Op) :
    ∀ s : RState, loadInv s → loadInv (runOps s ops).1 := by
  induction ops with
  | nil => intro s h; exact h
  | cons op rest ih => intro s h; exact ih _ (applyOp_loadInv s op h)

theorem loadInv_init : loadInv init := rfl

theorem transition_valueCount_one (s : RState) (op : Op)
    (h0 : s.loadComplete = false) (h1 : (applyOp s op).1.loadComplete = true) :
    valueCount (applyOp s op).2 = 1 := by
  cases op with
  | add k p => simp [applyOp, add_loadComplete, h0] at h1
  | remove k => simp [applyOp, remove_fst, dropRecord_fst_loadComplete, h0] at h1
  | move k p => simp [applyOp, move_fst_loadComplete, h0] at h1
  | stop => simp [applyOp, reset_fst_loadComplete] at h1
  | masterLoad =>
      simp only [applyOp, masterPathLoaded] at h1 ⊢
      rw [checkLoadState_none_eq] at h1 ⊢
      split_ifs at h1 ⊢ with hA hB
      · simp [h0] at hA
      · dsimp only
        rw [valueCount_notifyValue]
        rfl
      · simp [h0] at h1
  | valueArrive k v =>
      simp only [applyOp] at h1 ⊢
      unfold valueUpdated at h1 ⊢
      dsimp only at h1 ⊢
      cases hg : objGet? s.loading k with
      | none =>
          simp only [hg] at h1
          split_ifs at h1 <;> simp [h0] at h1
      | some r =>
          simp only [hg] at h1
          dsimp only
          rw [checkLoadState_snd_some, List.nil_append, valueCount_notify,
              if_pos h1]

theorem valueCount_remove_of_not_loaded (s : RState) (k : String)
    (h : s.loadComplete = false) : valueCount (remove s k).2 = 0 := by
  unfold remove
  dsimp only
  cases hg : (dropRecord s k).2 with
  | none => simp only [hg]; rfl
  | some o =>
      simp only [hg]
      rw [valueCount_notify, dropRecord_fst_loadComplete, h]
      rfl

theorem drain_fst_loadComplete (ks : List String) (a : RState × List Ev) :
    (List.foldl (fun acc k => ((remove acc.1 k).1, acc.2 ++ (remove acc.1 k).2))
        a ks).1.loadComplete
      = a.1.loadComplete := by
  induction ks generalizing a with
  | nil => rfl
  | cons k rest ih =>
      rw [List.foldl_cons, ih]
      dsimp only
      rw [remove_fst, dropRecord_fst_loadComplete]

theorem drain_valueCount (ks : List String) (a : RState × List Ev)
    (h : a.1.loadComplete = false) :
    valueCount (List.foldl
        (fun acc k => ((remove acc.1 k).1, acc.2 ++ (remove acc.1 k).2))
        a ks).2
      = valueCount a.2 := by
  induction ks generalizing a with
  | nil => rfl
  | cons k rest ih =>
      rw [List.foldl_cons]
      rw [ih ((remove a.1 k).1, a.2 ++ (remove a.1 k).2)
            (by dsimp only; rw [remove_fst, dropRecord_fst_loadComplete]; exact h)]
      dsimp only
      rw [valueCount_append, valueCount_remove_of_not_loaded a.1 k h]
      omega

theorem step_valueCount_zero (s : RState) (op : Op)
    (h0 : s.loadComplete = false) (h1 : (applyOp s op).1.loadComplete = false) :
    valueCount (applyOp s op).2 = 0 := by
  cases op with
  | add k p => rfl
  | remove k => exact valueCount_remove_of_not_loaded s k h0
  | move k p =>
      simp only [applyOp]
      unfold move
      by_cases hc : s.recs.contains k = true
      · rw [if_pos hc]
        dsimp only
        rw [valueCount_notify]
        simp [h0]
      · rw [if_neg hc]
        rfl
  | masterLoad =>
      simp only [applyOp, masterPathLoaded] at h1 ⊢
      rw [checkLoadState_none_eq] at h1 ⊢
      split_ifs at h1 ⊢ with hA hB
      · simp [h0] at hA
      · rfl
  | valueArrive k v =>
      simp only [applyOp] at h1 ⊢
      unfold valueUpdated at h1 ⊢
      dsimp only at h1 ⊢
      cases hg : objGet? s.loading k with
      | none =>
          simp only [hg] at h1
          split_ifs with hc
          · rw [valueCount_notify]
            simp [h0]
          · rfl
      | some r =>
          simp only [hg] at h1
          dsimp only
          rw [checkLoadState_snd_some, List.nil_append, valueCount_notify,
              if_neg (by rw [h1]; exact Bool.false_ne_true)]
  | stop =>
      have hd := drain_valueCount s.recs (s, []) h0
      simpa [applyOp, reset, resetDrain, valueCount_nil] using hd

theorem step_preserves_loaded (s : RState) (op : Op) (hop : op ≠ Op.stop)
    (h : s.loadComplete = true) : (applyOp s op).1.loadComplete = true := by
  cases op with
  | add k p => simpa [applyOp, add_loadComplete] using h
  | remove k => simpa [applyOp, remove_fst, dropRecord_fst_loadComplete] using h
  | move k p => simpa [applyOp, move_fst_loadComplete] using h
  | masterLoad =>
      simp only [applyOp, masterPathLoaded]
      rw [checkLoadState_of_complete _ none (by exact h)]
      exact h
  | valueArrive k v =>
      simp only [applyOp]
      unfold valueUpdated
      dsimp only
      cases hg : objGet? s.loading k with
      | none =>
          dsimp only
          split_ifs <;> exact h
      | some r =>
          dsimp only
          rw [checkLoadState_of_complete _ (some k) (by exact h)]
          exact h
  | stop => exact absurd rfl hop

end RecordList

namespace RecordList

theorem value_mem_notifyValue (s : RState) (p : List Snap)
    (h : Ev.value p ∈ notifyValue s) : p = toArray s.snaps := by
  unfold notifyValue at h
  split at h <;> simp_all

theorem value_mem_notify (s : RState) (e : EvKind) (k : String) (o : Option Snap)
    (p : List Snap) (h : Ev.value p ∈ notify s e k o) : p = toArray s.snaps := by
  cases e <;>
    · unfold notify at h
      rw [List.mem_append] at h
      rcases h with h | h
      · simp at h
      · exact value_mem_notifyValue s p h

/-- Claim C3 amended: every aggregate value notification emitted by an add,
remove, move, value-arrival or master-load stimulus carries exactly the
snapshots held in snapshot storage after the step, in storage order, which is
the order in which the keys first received a snapshot, not the ordered key
sequence. -/
theorem c3_value_payload_is_storage_order (s : RState) (op : Op)
    (hop : op ≠ Op.stop) (p : List Snap)
    (hmem : Ev.value p ∈ (applyOp s op).2) :
    p = toArray (applyOp s op).1.snaps := by
  cases op with
  | add k q => simp [applyOp] at hmem
  | stop => exact absurd rfl hop
  | remove k =>
      simp only [applyOp] at hmem ⊢
      unfold remove at hmem ⊢
      dsimp only at hmem ⊢
      cases hg : (dropRecord s k).2 with
      | none => simp only [hg] at hmem; simp at hmem
      | some o =>
          simp only [hg] at hmem
          exact value_mem_notify _ _ _ _ _ hmem
  | move k q =>
      simp only [applyOp] at hmem ⊢
      unfold move at hmem ⊢
      by_cases hc : s.recs.contains k = true
      · rw [if_pos hc] at hmem ⊢
        have hp := value_mem_notify _ EvKind.child_moved k none p hmem
        exact hp
      · rw [if_neg hc] at hmem
        simp at hmem
  | masterLoad =>
      simp only [applyOp, masterPathLoaded] at hmem ⊢
      rw [checkLoadState_none_eq] at hmem ⊢
      split_ifs at hmem ⊢ with hA hB
      · simp at hmem
      · exact value_mem_notifyValue _ _ hmem
      · simp at hmem
  | valueArrive k v =>
      simp only [applyOp] at hmem ⊢
      unfold valueUpdated at hmem ⊢
      dsimp only at hmem ⊢
      cases hg : objGet? s.loading k with
      | none =>
          simp only [hg] at hmem ⊢
          split_ifs at hmem ⊢ with hc
          · have hp := value_mem_notify _ EvKind.child_changed k none p hmem
            exact hp
          · simp at hmem
      | some r =>
          simp only [hg] at hmem ⊢
          rw [checkLoadState_snd_some, List.nil_append] at hmem
          have hp := value_mem_notify _ EvKind.child_added k none p hmem
          rw [hp]

/-- Witness for c3_value_payload_is_storage_order: firing the master-load
signal after one record has loaded emits the aggregate payload [snap a],
which is the storage-ordered snapshot array of the resulting state. -/
theorem c3_witness :
    [Snap.mk "a" 1]
      = toArray (applyOp (run [Op.add "a" none, Op.valueArrive "a" 1])
          Op.masterLoad).1.snaps :=
  c3_value_payload_is_storage_order
    (run [Op.add "a" none, Op.valueArrive "a" 1]) Op.masterLoad
    (by decide) [Snap.mk "a" 1] (by decide)

/-- Claim C1: along every session the loadComplete flag equals (ordering
stream loaded AND outstanding initial batch empty), and any step that turns
the flag from false to true emits exactly one aggregate value notification,
whether the step is the master-load signal alone or the arrival of the last
pending value. -/
theorem c1_load_transition_single_value :
    (∀ ops : List Op,
        (run ops).loadComplete
          = ((run ops).masterLoaded && (run ops).initialKeysLeft.isEmpty))
    ∧ (∀ (s : RState) (op : Op),
        s.loadComplete = false → (applyOp s op).1.loadComplete = true →
          valueCount (applyOp s op).2 = 1) :=
  ⟨fun ops => runOps_loadInv ops init loadInv_init, transition_valueCount_one⟩

/-- Witness for c1_load_transition_single_value: from the fresh state the
master-load signal completes the load and emits exactly one value event. -/
theorem c1_witness : valueCount (applyOp init Op.masterLoad).2 = 1 :=
  c1_load_transition_single_value.2 init Op.masterLoad (by decide) (by decide)

/-- Claim C2: the aggregate-notification step is a no-op before loadComplete;
a step that starts and ends with loadComplete false emits no aggregate value
notification; and a whole session none of whose states reaches loadComplete
emits no aggregate value notification at all. -/
theorem c2_no_value_before_load_complete :
    (∀ s : RState, s.loadComplete = false → notifyValue s = [])
    ∧ (∀ (s : RState) (op : Op), s.loadComplete = false →
        (applyOp s op).1.loadComplete = false →
          valueCount (applyOp s op).2 = 0)
    ∧ (∀ ops : List Op,
        (∀ l1 l2 : List Op, ops = l1 ++ l2 → (run l1).loadComplete = false) →
          valueCount (runOps init ops).2 = 0) := by
  refine ⟨?_, step_valueCount_zero, ?_⟩
  · intro s h
    unfold notifyValue
    rw [if_neg (by rw [h]; exact Bool.false_ne_true)]
  · intro ops
    induction ops using List.reverseRecOn with
    | nil => intro H; rfl
    | append_singleton rest op ih =>
        intro H
        rw [runOps_snoc_snd, valueCount_append]
        have hrest : valueCount (runOps init rest).2 = 0 :=
          ih (fun l1 l2 hps => H l1 (l2 ++ [op]) (by rw [hps, List.append_assoc]))
        have hstep : valueCount (applyOp (run rest) op).2 = 0 := by
          apply step_valueCount_zero
          · exact H rest [op] rfl
          · rw [← run_snoc]
            exact H (rest ++ [op]) [] (by simp)
        omega

/-- Witness for c2_no_value_before_load_complete: a session consisting of a
single add emits no aggregate value notification. -/
theorem c2_witness : valueCount (runOps init [Op.add "a" none]).2 = 0 :=
  c2_no_value_before_load_complete.2.2 [Op.add "a" none]
    (by
      intro l1 l2 hps
      cases l1 with
      | nil => decide
      | cons x t =>
          injection hps with h1 h2
          cases t with
          | nil => rw [← h1]; decide
          | cons y t2 => exact absurd h2 (by simp))

/-- Claim C4: no step other than stop can turn loadComplete from true back to
false, stop resets it to false, and along any continuation free of stop the
flag stays true once true; hence it flips false to true at most once per
session and only a full reset reverts it. -/
theorem c4_load_complete_monotone :
    (∀ (s : RState) (op : Op), op ≠ Op.stop → s.loadComplete = true →
        (applyOp s op).1.loadComplete = true)
    ∧ (∀ s : RState, (applyOp s Op.stop).1.loadComplete = false)
    ∧ (∀ (l1 l2 : List Op), Op.stop ∉ l2 → (run l1).loadComplete = true →
        (run (l1 ++ l2)).loadComplete = true) := by
  refine ⟨step_preserves_loaded, fun s => rfl, ?_⟩
  intro l1 l2
  induction l2 generalizing l1 with
  | nil => intro _ h; simpa using h
  | cons op rest ih =>
      intro hmem h
      have hop : op ≠ Op.stop := fun e => hmem (e ▸ List.mem_cons_self op rest)
      have hrest : Op.stop ∉ rest := fun m => hmem (List.mem_cons_of_mem op m)
      have hsplit : l1 ++ op :: rest = (l1 ++ [op]) ++ rest := by
        rw [List.append_assoc]
        rfl
      rw [hsplit]
      apply ih (l1 ++ [op]) hrest
      rw [run_snoc]
      exact step_preserves_loaded (run l1) op hop h

/-- Witness for c4_load_complete_monotone: once the master-load signal has
completed the load, a later add does not revert the flag. -/
theorem c4_witness :
    (run ([Op.masterLoad] ++ [Op.add "a" none])).loadComplete = true :=
  c4_load_complete_monotone.2.2 [Op.masterLoad] [Op.add "a" none]
    (by decide) (by decide)

end RecordList
